import Mathlib

/-!
Shallow embedding of the juju/httprequest marshal/unmarshal engine.

The definitions below are translated from the Go sources:
  - type.go    : tag parsing, request-type descriptor construction,
                 the per-field unmarshal codecs,
  - marshal.go : the per-field marshal codecs and the path-template
                 substitution loop (first revision, the one the claims cite),
  - handler.go : the handler adapter (second revision, the one the claims cite),
  - client code (src/unnamed/part_006) : Client.Call and ErrorUnmarshaler.

External collaborators (the JSON codec, fmt.Sscan, encoding.TextUnmarshaler
implementations, the HTTP transport) are modelled as explicit parameters or
as an abstract JSON value type, exactly as the spec scopes them out.
-/

/-- Model of a JSON document, standing for the bytes that encoding/json
produces and consumes.  Serialisation itself is the out-of-scope external
codec, so a request body that holds JSON is modelled as holding the parsed
tree directly. -/
inductive Json where
  | null : Json
  | bool (b : Bool) : Json
  | num (n : Int) : Json
  | str (s : String) : Json
  | arr (elems : List Json) : Json
  | obj (fields : List (String × Json)) : Json

/-- Model of errgo causes: the two classifications used by the package
plus the absence of a cause. -/
inductive ErrCause where
  | noCause : ErrCause
  | badUnmarshalType : ErrCause
  | unmarshalError : ErrCause
deriving DecidableEq, Repr

/-- Model of a Go error value: its message and its errgo cause. -/
structure GoErr where
  msg : String
  cause : ErrCause
deriving Repr

/-- Model of errgo.New / fmt.Errorf: a plain error with no cause. -/
def errgoNew (m : String) : GoErr := ⟨m, ErrCause.noCause⟩

/-- Model of errgo.Notef: prefixes the message and hides the cause. -/
def errgoNotef (e : GoErr) (ctx : String) : GoErr :=
  ⟨ctx ++ ": " ++ e.msg, ErrCause.noCause⟩

/-- Model of errgo.WithCausef with the ErrBadUnmarshalType cause and the
message format "bad type %s". -/
def withCauseBadType (e : GoErr) (typeName : String) : GoErr :=
  ⟨"bad type " ++ typeName ++ ": " ++ e.msg, ErrCause.badUnmarshalType⟩

/-- Model of errgo.WithCausef with the ErrUnmarshal cause. -/
def withCauseUnmarshal (e : GoErr) (ctx : String) : GoErr :=
  ⟨ctx ++ ": " ++ e.msg, ErrCause.unmarshalError⟩

/-- Model of errgo.Mask(err, errgo.Is(ErrUnmarshal)): the cause survives
exactly when it is ErrUnmarshal. -/
def maskIsUnmarshal (e : GoErr) : GoErr :=
  if e.cause = ErrCause.unmarshalError then e else ⟨e.msg, ErrCause.noCause⟩

/-- Model of errgo.NoteMask(err, ctx, errgo.Is(ErrUnmarshal)). -/
def noteMaskIsUnmarshal (e : GoErr) (ctx : String) : GoErr :=
  ⟨ctx ++ ": " ++ e.msg,
   if e.cause = ErrCause.unmarshalError then e.cause else ErrCause.noCause⟩

/-- The tag sources of type.go (sourceNone, sourcePath, sourceForm,
sourceBody). -/
inductive TagSource where
  | sourceNone : TagSource
  | sourcePath : TagSource
  | sourceForm : TagSource
  | sourceBody : TagSource
deriving DecidableEq, Repr

/-- The tag structure of type.go: logical name and source. -/
structure Tag where
  name : String
  source : TagSource
deriving DecidableEq, Repr

/-- The keyword loop of parseTag: processes the items after the first,
overwriting the source each time, failing on an unknown keyword. -/
def parseTagFlags : List String → Tag → Except GoErr Tag
  | [], t => Except.ok t
  | f :: rest, t =>
    if f = "path" then parseTagFlags rest { t with source := TagSource.sourcePath }
    else if f = "form" then parseTagFlags rest { t with source := TagSource.sourceForm }
    else if f = "body" then parseTagFlags rest { t with source := TagSource.sourceBody }
    else Except.error (errgoNew ("unknown tag flag \"" ++ f ++ "\""))

/-- Model of strings.Split(s, ",") by structural recursion on the
characters, carrying the current chunk in reverse. -/
def splitCommaChars : List Char → List Char → List String
  | [], acc => [String.mk acc.reverse]
  | c :: rest, acc =>
    if c = ',' then String.mk acc.reverse :: splitCommaChars rest []
    else splitCommaChars rest (c :: acc)

/-- Model of strings.Split(s, ","): the chunks of s around each comma;
the empty string yields a single empty chunk, as in Go. -/
def splitComma (s : String) : List String := splitCommaChars s.data []

/-- Model of parseTag (type.go): the httprequest tag string is split on
commas; the first item renames the field, the rest set the source. -/
def parseTag (tagStr : String) (fieldName : String) : Except GoErr Tag :=
  let t : Tag := ⟨fieldName, TagSource.sourceNone⟩
  if tagStr = "" then Except.ok t
  else
    match splitComma tagStr with
    | [] => Except.ok t
    | f0 :: rest =>
      let t := if f0 ≠ "" then { t with name := f0 } else t
      parseTagFlags rest t

/-- Model of a Go field type, classified the way getUnmarshaler and
getMarshaler classify types: string, []string, a type implementing
encoding.TextUnmarshaler / encoding.TextMarshaler, an arbitrary
JSON-serializable type (structs, maps, primitives - used for body fields),
a type handled by the fmt.Sscan / fmt.Sprint fallback, or a pointer. -/
inductive GoFieldType where
  | stringT : GoFieldType
  | stringSliceT : GoFieldType
  | textT (name : String) : GoFieldType
  | jsonT (name : String) : GoFieldType
  | scanT (name : String) : GoFieldType
  | ptrT (elem : GoFieldType) : GoFieldType
deriving DecidableEq, Repr

/-- Printed name of a field type, used in error messages (v.Type()). -/
def goFieldTypeName : GoFieldType → String
  | GoFieldType.stringT => "string"
  | GoFieldType.stringSliceT => "[]string"
  | GoFieldType.textT n => n
  | GoFieldType.jsonT n => n
  | GoFieldType.scanT n => n
  | GoFieldType.ptrT e => "*" ++ goFieldTypeName e

/-- Model of a Go value inhabiting one of the field types. -/
inductive GoValue where
  | vStr (s : String) : GoValue
  | vStrList (l : List String) : GoValue
  | vText (s : String) : GoValue
  | vJson (j : Json) : GoValue
  | vOther (s : String) : GoValue
  | vPtrNone : GoValue
  | vPtrSome (v : GoValue) : GoValue

/-- The zero Go value of each field type. -/
def zeroValue : GoFieldType → GoValue
  | GoFieldType.stringT => GoValue.vStr ""
  | GoFieldType.stringSliceT => GoValue.vStrList []
  | GoFieldType.textT _ => GoValue.vText ""
  | GoFieldType.jsonT _ => GoValue.vJson Json.null
  | GoFieldType.scanT _ => GoValue.vOther ""
  | GoFieldType.ptrT _ => GoValue.vPtrNone

/-- Model of one declared struct field: its name, its PkgPath (empty for
exported fields), its httprequest tag string (empty when absent), its type
and whether it is anonymous (embedded). -/
structure GoField where
  name : String
  pkgPath : String
  tagStr : String
  type : GoFieldType
  anonymous : Bool
deriving Repr

/-- A struct type is its (flattened) ordered field list.  The claims under
study involve no embedded members, so the flattening pre-pass of
type.go (fields / addFields) is the identity here. -/
abbrev GoStruct := List GoField

/-- Model of the reflect.Type argument given to parseRequestType: a
pointer to a struct, a bare struct, or some other type. -/
inductive GoType where
  | ptrTo (s : GoStruct) : GoType
  | structT (s : GoStruct) : GoType
  | otherT (name : String) : GoType

/-- Printed name of a request type, used in "bad type %s" messages. -/
def goTypeName : GoType → String
  | GoType.ptrTo _ => "*struct"
  | GoType.structT _ => "struct"
  | GoType.otherT n => n

/-- Model of implementsTextUnmarshaler (type.go): in this universe
exactly the textT types implement encoding.TextUnmarshaler via their
pointer type. -/
def implementsTextUnmarshaler : GoFieldType → Bool
  | GoFieldType.textT _ => true
  | _ => false

/-- Model of implementsTextMarshaler (marshal.go). -/
def implementsTextMarshaler : GoFieldType → Bool
  | GoFieldType.textT _ => true
  | _ => false

/-- The unmarshal strategy chosen by getUnmarshaler, as data so that
descriptor construction can be compared for equality. -/
inductive UnmarshalerKind where
  | nopU : UnmarshalerKind
  | bodyU : UnmarshalerKind
  | allFieldU (name : String) : UnmarshalerKind
  | stringU (tg : Tag) : UnmarshalerKind
  | textU (tg : Tag) : UnmarshalerKind
  | scanU (tg : Tag) : UnmarshalerKind
deriving DecidableEq, Repr

/-- The marshal strategy chosen by getMarshaler. -/
inductive MarshalerKind where
  | nopM : MarshalerKind
  | bodyM : MarshalerKind
  | allFieldM (name : String) : MarshalerKind
  | stringM (tg : Tag) : MarshalerKind
  | textM (tg : Tag) : MarshalerKind
  | sprintM (tg : Tag) : MarshalerKind
deriving DecidableEq, Repr

/-- Model of getUnmarshaler (type.go): selects the unmarshal strategy for
a field with the given tag and (pointer-stripped) type. -/
def getUnmarshaler (tg : Tag) (t : GoFieldType) : Except GoErr UnmarshalerKind :=
  if tg.source = TagSource.sourceNone then Except.ok UnmarshalerKind.nopU
  else if tg.source = TagSource.sourceBody then Except.ok UnmarshalerKind.bodyU
  else if t = GoFieldType.stringSliceT then
    if tg.source ≠ TagSource.sourceForm then
      Except.error (errgoNew "invalid target type []string for path parameter")
    else Except.ok (UnmarshalerKind.allFieldU tg.name)
  else if t = GoFieldType.stringT then Except.ok (UnmarshalerKind.stringU tg)
  else if implementsTextUnmarshaler t then Except.ok (UnmarshalerKind.textU tg)
  else Except.ok (UnmarshalerKind.scanU tg)

/-- Model of getMarshaler (marshal.go). -/
def getMarshaler (tg : Tag) (t : GoFieldType) : Except GoErr MarshalerKind :=
  if tg.source = TagSource.sourceNone then Except.ok MarshalerKind.nopM
  else if tg.source = TagSource.sourceBody then Except.ok MarshalerKind.bodyM
  else if t = GoFieldType.stringSliceT then
    if tg.source ≠ TagSource.sourceForm then
      Except.error (errgoNew "invalid target type []string for path parameter")
    else Except.ok (MarshalerKind.allFieldM tg.name)
  else if t = GoFieldType.stringT then Except.ok (MarshalerKind.stringM tg)
  else if implementsTextMarshaler t then Except.ok (MarshalerKind.textM tg)
  else Except.ok (MarshalerKind.sprintM tg)

/-- The preprocessed per-field plan (the field struct of type.go): the
field's index, whether the declared type was a pointer (makePointerResult
versus makeValueResult), the pointer-stripped type, and the two codecs. -/
structure FieldDesc where
  index : Nat
  isPtr : Bool
  elemType : GoFieldType
  unmarshal : UnmarshalerKind
  marshal : MarshalerKind
deriving DecidableEq, Repr

/-- Whether a field's declared type is a pointer (choosing
makePointerResult over makeValueResult in parseRequestType). -/
def fieldIsPtr : GoFieldType → Bool
  | GoFieldType.ptrT _ => true
  | _ => false

/-- The field type with one pointer level stripped (f.Type = f.Type.Elem()
in parseRequestType). -/
def fieldElemType : GoFieldType → GoFieldType
  | GoFieldType.ptrT e => e
  | t => t

/-- The per-field body of the parseRequestType loop: skip unexported
fields, parse the tag, enforce the single-body invariant, choose the
result maker and both codecs, and reject tagged anonymous fields. -/
def parseFields : List (Nat × GoField) → Bool → List FieldDesc → Except GoErr (List FieldDesc)
  | [], _, acc => Except.ok acc.reverse
  | (i, f) :: rest, hasBody, acc =>
    if f.pkgPath ≠ "" then
      -- Ignore unexported fields.
      parseFields rest hasBody acc
    else
      match parseTag f.tagStr f.name with
      | Except.error e =>
        Except.error (errgoNotef e ("bad tag \"" ++ f.tagStr ++ "\" in field " ++ f.name))
      | Except.ok tg =>
        if tg.source = TagSource.sourceBody ∧ hasBody = true then
          Except.error (errgoNew "more than one body field specified")
        else
          match getUnmarshaler tg (fieldElemType f.type) with
          | Except.error e => Except.error e
          | Except.ok uk =>
            match getMarshaler tg (fieldElemType f.type) with
            | Except.error e => Except.error e
            | Except.ok mk =>
              if f.anonymous = true ∧ tg.source ≠ TagSource.sourceBody ∧
                  tg.source ≠ TagSource.sourceNone then
                Except.error (errgoNew "httprequest tag not yet supported on anonymous fields")
              else
                parseFields rest (hasBody || decide (tg.source = TagSource.sourceBody))
                  (⟨i, fieldIsPtr f.type, fieldElemType f.type, uk, mk⟩ :: acc)

/-- Model of parseRequestType (type.go): rejects anything that is not a
pointer to a struct, then walks the fields. -/
def parseRequestType (t : GoType) : Except GoErr (List FieldDesc) :=
  match t with
  | GoType.ptrTo s => parseFields s.enum false []
  | _ => Except.error (errgoNew "type is not pointer to struct")

/-- Model of getRequestType: the cache is behaviourally transparent
(races insert equivalent descriptors), so it reduces to parseRequestType. -/
def getRequestType (t : GoType) : Except GoErr (List FieldDesc) :=
  parseRequestType t

/-- Model of the bytes sitting in an HTTP request body, as seen through
the external JSON codec: reading can fail, the bytes can parse as a JSON
document, or they can be malformed (an empty body is malformed JSON). -/
inductive BodyModel where
  | readError (m : String) : BodyModel
  | jsonBody (j : Json) : BodyModel
  | invalid (m : String) : BodyModel

/-- Model of httprequest.Params together with the request fields the
engine touches: method, URL path, raw query, parsed form, path variables
and body. -/
structure MParams where
  method : String
  urlPath : String
  rawQuery : String
  form : List (String × List String)
  pathVar : List (String × String)
  body : BodyModel

/-- Form lookup (Go map indexing p.Form[name]): the keys of a url.Values
map are unique, modelled by first-match lookup returning [] on a miss. -/
def formValues (form : List (String × List String)) (name : String) : List String :=
  match form with
  | [] => []
  | (k, vs) :: rest => if k = name then vs else formValues rest name

/-- Model of the formGetters table entry for sourceForm: the first value
for the name, reporting whether one was found. -/
def formGetForm (name : String) (p : MParams) : Option String :=
  match formValues p.form name with
  | [] => none
  | v :: _ => some v

/-- Model of the formGetters table entry for sourcePath: linear scan of
PathVar returning the first entry with a matching key. -/
def formGetPath (name : String) (p : MParams) : Option String :=
  match p.pathVar.find? (fun kv => kv.1 = name) with
  | none => none
  | some kv => some kv.2

/-- Model of the formGetters table, indexed by source. -/
def formGet (src : TagSource) (name : String) (p : MParams) : Option String :=
  match src with
  | TagSource.sourceForm => formGetForm name p
  | TagSource.sourcePath => formGetPath name p
  | _ => none

/-- url.Values.Add: appends a value under a key, creating the key. -/
def formAdd (form : List (String × List String)) (name value : String) :
    List (String × List String) :=
  match form with
  | [] => [(name, [value])]
  | (k, vs) :: rest =>
    if k = name then (k, vs ++ [value]) :: rest else (k, vs) :: formAdd rest name value

/-- Model of the formSetters table entry for sourceForm. -/
def formSetForm (name value : String) (p : MParams) : MParams :=
  { p with form := formAdd p.form name value }

/-- Model of the formSetters table entry for sourcePath: appends to
p.PathVar. -/
def formSetPath (name value : String) (p : MParams) : MParams :=
  { p with pathVar := p.pathVar ++ [(name, value)] }

/-- Model of the formSetters table, indexed by source. -/
def formSet (src : TagSource) (name value : String) (p : MParams) : MParams :=
  match src with
  | TagSource.sourceForm => formSetForm name value p
  | TagSource.sourcePath => formSetPath name value p
  | _ => p

/-- The external per-type codecs a field type may bring along:
its UnmarshalText / MarshalText methods and the fmt.Sscan / fmt.Sprint
behaviour for its type.  These live outside the package. -/
structure Codecs where
  unmarshalText : String → Except String GoValue
  scan : String → Except String GoValue
  marshalText : GoValue → Except String String
  sprint : GoValue → String

/-- Model of makeResult: the cell an unmarshal codec assigns into.  For a
pointer field, makePointerResult allocates a fresh element when the
pointer is nil and returns the pointee. -/
def cellOf (isPtr : Bool) (elemType : GoFieldType) (v : GoValue) : GoValue :=
  if isPtr then
    match v with
    | GoValue.vPtrSome u => u
    | _ => zeroValue elemType
  else v

/-- Writes a cell produced by an unmarshal codec back into the field: a
pointer field ends up pointing at the cell. -/
def putCell (isPtr : Bool) (_v c : GoValue) : GoValue :=
  if isPtr then GoValue.vPtrSome c else c

/-- Model of json.Unmarshal(data, target): decoding a JSON document into
a value of the target type. -/
def jsonDecode (t : GoFieldType) (j : Json) : Except String GoValue :=
  match t with
  | GoFieldType.jsonT _ => Except.ok (GoValue.vJson j)
  | GoFieldType.stringT =>
    match j with
    | Json.str s => Except.ok (GoValue.vStr s)
    | _ => Except.error "json: cannot unmarshal value into Go value of type string"
  | _ => Except.error ("json: unsupported target type " ++ goFieldTypeName t)

/-- Model of unmarshalBody (type.go): read the body, JSON-decode it into
the result cell. -/
def unmarshalBody (isPtr : Bool) (elemType : GoFieldType) (v : GoValue)
    (p : MParams) : Except GoErr GoValue :=
  match p.body with
  | BodyModel.readError m =>
    Except.error (errgoNotef (errgoNew m) "cannot read request body")
  | BodyModel.invalid m =>
    Except.error (errgoNotef (errgoNew m) "cannot unmarshal request body")
  | BodyModel.jsonBody j =>
    match jsonDecode elemType j with
    | Except.error m =>
      Except.error (errgoNotef (errgoNew m) "cannot unmarshal request body")
    | Except.ok u => Except.ok (putCell isPtr v u)

/-- Model of the unmarshaler closures of type.go, interpreted over the
strategy chosen by getUnmarshaler.  Returns the new field value. -/
def runUnmarshaler (env : Codecs) (k : UnmarshalerKind) (isPtr : Bool)
    (elemType : GoFieldType) (v : GoValue) (p : MParams) : Except GoErr GoValue :=
  match k with
  | UnmarshalerKind.nopU =>
    -- unmarshalNop: calls makeResult (allocating a nil pointer field) and
    -- fills nothing in.
    Except.ok (putCell isPtr v (cellOf isPtr elemType v))
  | UnmarshalerKind.bodyU => unmarshalBody isPtr elemType v p
  | UnmarshalerKind.allFieldU name =>
    -- unmarshalAllField: all form values for the name, if any.
    match formValues p.form name with
    | [] => Except.ok v
    | vs => Except.ok (putCell isPtr v (GoValue.vStrList vs))
  | UnmarshalerKind.stringU tg =>
    -- unmarshalString: first value if present, field untouched otherwise.
    match formGet tg.source tg.name p with
    | none => Except.ok v
    | some val => Except.ok (putCell isPtr v (GoValue.vStr val))
  | UnmarshalerKind.textU tg =>
    -- unmarshalWithUnmarshalText: the found flag is ignored, so the codec
    -- runs on the empty string when the parameter is absent.
    let val := (formGet tg.source tg.name p).getD ""
    match env.unmarshalText val with
    | Except.error e => Except.error (errgoNew e)
    | Except.ok u => Except.ok (putCell isPtr v u)
  | UnmarshalerKind.scanU tg =>
    -- unmarshalWithScan: absent parameters are skipped entirely.
    match formGet tg.source tg.name p with
    | none => Except.ok v
    | some val =>
      match env.scan val with
      | Except.error e =>
        Except.error (errgoNotef (errgoNew e)
          ("cannot parse \"" ++ val ++ "\" into " ++
            goFieldTypeName (if isPtr then GoFieldType.ptrT elemType else elemType)))
      | Except.ok u => Except.ok (putCell isPtr v u)

/-- Fetches field number i of a struct value. -/
def fieldByIndex (x : List GoValue) (i : Nat) : GoValue :=
  (x.get? i).getD GoValue.vPtrNone

/-- Model of the unmarshal loop (the internal unmarshal of type.go):
walks the descriptor, updating each field in turn and wrapping the first
field error with the ErrUnmarshal cause. -/
def unmarshalLoop (env : Codecs) (p : MParams) (x : List GoValue) :
    List FieldDesc → Except GoErr (List GoValue)
  | [] => Except.ok x
  | fd :: rest =>
    match runUnmarshaler env fd.unmarshal fd.isPtr fd.elemType (fieldByIndex x fd.index) p with
    | Except.error e =>
      Except.error (withCauseUnmarshal e "cannot unmarshal into field")
    | Except.ok fv => unmarshalLoop env p (x.set fd.index fv) rest

/-- The zero value of a struct type: every field at its type's zero. -/
def zeroStruct (s : GoStruct) : List GoValue :=
  s.map fun f => zeroValue f.type

/-- Model of the public Unmarshal (type.go): descriptor construction
failures come back with the ErrBadUnmarshalType cause, field failures
keep the ErrUnmarshal cause. -/
def UnmarshalModel (env : Codecs) (p : MParams) (t : GoType) (x : List GoValue) :
    Except GoErr (List GoValue) :=
  match getRequestType t with
  | Except.error e => Except.error (withCauseBadType e (goTypeName t))
  | Except.ok fds =>
    match unmarshalLoop env p x fds with
    | Except.error e => Except.error (maskIsUnmarshal e)
    | Except.ok x2 => Except.ok x2

/-- Model of dereferenceIfPointer (marshal.go): nil pointers give the
empty reflect.Value, which every marshal codec treats as a skip. -/
def dereferenceIfPointer : GoValue → Option GoValue
  | GoValue.vPtrNone => none
  | GoValue.vPtrSome u => some u
  | v => some v

/-- Model of json.Marshal on this value universe.  Every value in the
universe is JSON-serializable, so encoding cannot fail here. -/
def goJsonEncode : GoValue → Json
  | GoValue.vStr s => Json.str s
  | GoValue.vStrList l => Json.arr (l.map Json.str)
  | GoValue.vText s => Json.str s
  | GoValue.vJson j => j
  | GoValue.vOther s => Json.str s
  | GoValue.vPtrNone => Json.null
  | GoValue.vPtrSome u => goJsonEncode u

/-- Model of marshalBody (marshal.go, first revision): skips nil
pointers, rejects methods other than POST and PUT, then JSON-encodes the
value into the request body. -/
def marshalBody (v : GoValue) (p : MParams) : Except GoErr MParams :=
  match dereferenceIfPointer v with
  | none => Except.ok p
  | some bodyValue =>
    if p.method ≠ "POST" ∧ p.method ≠ "PUT" then
      Except.error (errgoNew
        ("trying to marshal to body of a request with method \"" ++ p.method ++ "\""))
    else
      Except.ok { p with body := BodyModel.jsonBody (goJsonEncode bodyValue) }

/-- The string content of a Go value, for reflect.Value.String(). -/
def goValueString : GoValue → String
  | GoValue.vStr s => s
  | _ => ""

/-- Model of the marshaler closures of marshal.go, interpreted over the
strategy chosen by getMarshaler. -/
def runMarshaler (env : Codecs) (k : MarshalerKind) (v : GoValue) (p : MParams) :
    Except GoErr MParams :=
  match k with
  | MarshalerKind.nopM => Except.ok p
  | MarshalerKind.bodyM => marshalBody v p
  | MarshalerKind.allFieldM name =>
    match dereferenceIfPointer v with
    | none => Except.ok p
    | some u =>
      match u with
      | GoValue.vStrList values =>
        Except.ok (values.foldl (fun acc value => formSetForm name value acc) p)
      | _ => Except.ok p
  | MarshalerKind.stringM tg =>
    match dereferenceIfPointer v with
    | none => Except.ok p
    | some u => Except.ok (formSet tg.source tg.name (goValueString u) p)
  | MarshalerKind.textM tg =>
    match dereferenceIfPointer v with
    | none => Except.ok p
    | some u =>
      match env.marshalText u with
      | Except.error e => Except.error (errgoNew e)
      | Except.ok data => Except.ok (formSet tg.source tg.name data p)
  | MarshalerKind.sprintM tg =>
    match dereferenceIfPointer v with
    | none => Except.ok p
    | some u => Except.ok (formSet tg.source tg.name (env.sprint u) p)

/-- The paramsByName map built by marshal (marshal.go): a Go map filled
by iterating PathVar, so a later entry for the same key wins. -/
def paramsByName (pathVar : List (String × String)) (k : String) : Option String :=
  pathVar.foldl (fun acc kv => if kv.1 = k then some kv.2 else acc) none

/-- The inner scan of the substitution loop (the computation of end in
marshal): the number of leading characters of the remaining suffix that
are neither a colon nor a slash, so that end = i + 1 + scanLen of the
suffix after position i. -/
def scanLen : List Char → Nat
  | [] => 0
  | c :: rest => if c ≠ ':' ∧ c ≠ '/' then scanLen rest + 1 else 0

/-- Go-style slice path[a:b] on a character list (claims never exercise
a > b, where Go would panic; natural subtraction makes it empty). -/
def sliceChars (path : List Char) (a b : Nat) : List Char :=
  (path.drop a).take (b - a)

/-- The path placeholder substitution loop in marshal (marshal.go, first
revision): index i walks the template, offset marks how much has been
flushed to the buffer, and each `:name` or `*name` placeholder is replaced
by its bound value; a missing binding is a hard error.  The text after the
final placeholder is not flushed, exactly as in the source.  The loop
advances i by one each iteration; the structural argument rem is the
suffix of path starting at i, which keeps the recursion structural. -/
def substGo (path : List Char) (pv : List (String × String)) :
    List Char → Nat → Nat → Bool → List Char → Except GoErr (List Char)
  | [], _, _, hasParams, buf =>
    if !hasParams then Except.ok (buf ++ path) else Except.ok buf
  | c :: rem, i, offset, hasParams, buf =>
    if c ≠ ':' ∧ c ≠ '*' then substGo path pv rem (i + 1) offset hasParams buf
    else
      let e := i + 1 + scanLen rem
      if c = '*' ∧ e ≠ path.length then
        Except.error (errgoNew "placeholders starting with * are only allowed at the end")
      else if e - i < 2 then
        Except.error (errgoNew "request wildcards must be named with a non-empty name")
      else
        let buf := if i > 0 then buf ++ sliceChars path offset i else buf
        let wildcard := String.mk (sliceChars path (i + 1) e)
        match paramsByName pv wildcard with
        | none =>
          Except.error (errgoNew
            ("missing value for path parameter \"" ++ wildcard ++ "\""))
        | some paramValue =>
          substGo path pv rem (i + 1) e true (buf ++ paramValue.toList)

/-- Path placeholder substitution over strings. -/
def substPath (path : String) (pv : List (String × String)) : Except GoErr String :=
  match substGo path.data pv path.data 0 0 false [] with
  | Except.error e => Except.error e
  | Except.ok cs => Except.ok (String.mk cs)

/-- Model of url.Values.Encode as far as the engine observes it; the
exact escaping is the standard library's concern. -/
def formEncode (form : List (String × List String)) : String :=
  String.intercalate "&"
    (form.flatMap fun kv => kv.2.map fun v => kv.1 ++ "=" ++ v)

/-- The field loop of the internal marshal (marshal.go): each field error
is wrapped with the ErrUnmarshal cause and the "cannot marshal field"
context. -/
def marshalFields (env : Codecs) (x : List GoValue) :
    List FieldDesc → MParams → Except GoErr MParams
  | [], p => Except.ok p
  | fd :: rest, p =>
    match runMarshaler env fd.marshal (fieldByIndex x fd.index) p with
    | Except.error e => Except.error (withCauseUnmarshal e "cannot marshal field")
    | Except.ok p2 => marshalFields env x rest p2

/-- The internal marshal (marshal.go): run the field loop, substitute the
path template, then encode the form into the raw query. -/
def marshalCore (env : Codecs) (x : List GoValue) (fds : List FieldDesc)
    (p : MParams) : Except GoErr MParams :=
  match marshalFields env x fds p with
  | Except.error e => Except.error e
  | Except.ok p2 =>
    match substPath p2.urlPath p2.pathVar with
    | Except.error e => Except.error e
    | Except.ok newPath =>
      Except.ok { p2 with urlPath := newPath, rawQuery := formEncode p2.form }

/-- The request that http.NewRequest(method, baseURL, empty buffer)
yields, as far as the engine observes it: an empty body is malformed
JSON for the decoder. -/
def initParams (method basePath : String) : MParams :=
  ⟨method, basePath, "", [], [], BodyModel.invalid "unexpected end of JSON input"⟩

/-- Model of the public Marshal (marshal.go): descriptor construction
failures come back with the ErrBadUnmarshalType cause, marshal failures
keep the ErrUnmarshal cause. -/
def MarshalModel (env : Codecs) (basePath method : String) (t : GoType)
    (x : List GoValue) : Except GoErr MParams :=
  match getRequestType t with
  | Except.error e => Except.error (withCauseBadType e (goTypeName t))
  | Except.ok fds =>
    match marshalCore env x fds (initParams method basePath) with
    | Except.error e => Except.error (maskIsUnmarshal e)
    | Except.ok p => Except.ok p

/-- The three accepted result shapes of a handler function (handler.go):
no results, a final error, or a JSON result plus a final error.  The carried
function consumes the unmarshalled argument struct. -/
inductive HandlerFn where
  | h0 (f : List GoValue → Unit) : HandlerFn
  | h1 (f : List GoValue → Option GoErr) : HandlerFn
  | h2 (f : List GoValue → Json × Option GoErr) : HandlerFn

/-- Model of an HTTP response as written by the adapter: status, the
content-type header it sets, and the JSON document of the body. -/
structure WrittenResponse where
  status : Nat
  contentType : String
  body : Json

/-- Model of the error mapper: from an error to a status and a JSON body
(the JSON encoding of the mapped error body). -/
def ErrorMapperModel := GoErr → Nat × Json

/-- Model of WriteJSON (handler.go): sets the JSON content type, the
status code and the encoded value. -/
def writeJSON (code : Nat) (val : Json) : WrittenResponse :=
  ⟨code, "application/json", val⟩

/-- Model of ErrorMapper.WriteError (handler.go). -/
def writeError (e : ErrorMapperModel) (err : GoErr) : WrittenResponse :=
  let mapped := e err
  writeJSON mapped.1 mapped.2

/-- Model of the inbound call of a handler produced by ErrorMapper.Handle
(handler.go, second revision: handleParams followed by handleResult).
The form is already parsed into the MParams model, so req.ParseForm is
represented by its possible failure.  Returns what the adapter itself
writes: none when it writes nothing (void handlers and error-free error
handlers). -/
def handleModel (env : Codecs) (em : ErrorMapperModel) (argType : GoStruct)
    (fds : List FieldDesc) (fn : HandlerFn) (parseFormErr : Option String)
    (req : MParams) : Option WrittenResponse :=
  match parseFormErr with
  | some m =>
    some (writeError em (withCauseUnmarshal (errgoNew m) "cannot parse HTTP request form"))
  | none =>
    match unmarshalLoop env req (zeroStruct argType) fds with
    | Except.error e =>
      some (writeError em (noteMaskIsUnmarshal e "cannot unmarshal parameters"))
    | Except.ok av =>
      match fn with
      | HandlerFn.h0 f =>
        let _ := f av
        none
      | HandlerFn.h1 f =>
        match f av with
        | some herr => some (writeError em herr)
        | none => none
      | HandlerFn.h2 f =>
        match f av with
        | (_, some herr) => some (writeError em herr)
        | (val, none) => some (writeJSON 200 val)

/-- Model of an HTTP response received by the client (the fields that
Client.Call and ErrorUnmarshaler read). -/
structure HttpResponse where
  statusCode : Nat
  status : String
  requestURL : String
  location : String
  contentType : String
  body : BodyModel

/-- Model of checkIsJSON as far as the client error path needs it: the
declared content type must be JSON. -/
def checkIsJSON (resp : HttpResponse) : Except GoErr Unit :=
  if resp.contentType = "application/json" then Except.ok ()
  else Except.error (errgoNew
    ("unexpected content type " ++ resp.contentType ++ "; want application/json"))

/-- The remote error shape used by the default error unmarshaler. -/
structure RemoteError where
  message : String
  code : String

/-- Model of (*RemoteError).Error. -/
def remoteErrorString (e : RemoteError) : String :=
  if e.message = "" then "httprequest: no error message found"
  else "httprequest: " ++ e.message

/-- Model of json decoding into a RemoteError value. -/
def decodeRemoteError (j : Json) : RemoteError :=
  match j with
  | Json.obj fields =>
    let msg := match fields.lookup "Message" with
      | some (Json.str s) => s
      | _ => ""
    let code := match fields.lookup "Code" with
      | some (Json.str s) => s
      | _ => ""
    ⟨msg, code⟩
  | _ => ⟨"", ""⟩

/-- Model of the function returned by ErrorUnmarshaler(new(RemoteError))
(the DefaultErrorUnmarshaler of the client code): a 3xx status becomes an
unexpected-redirect error before anything else is looked at. -/
def defaultErrorUnmarshaler (resp : HttpResponse) : Option GoErr :=
  if 300 ≤ resp.statusCode ∧ resp.statusCode < 400 then
    some (errgoNew
      ("unexpected redirect (status " ++ resp.status ++ ") from \"" ++
        resp.requestURL ++ "\" to \"" ++ resp.location ++ "\""))
  else
    match checkIsJSON resp with
    | Except.error e =>
      some (errgoNew
        ("cannot unmarshal error response (status " ++ resp.status ++ "): " ++ e.msg))
    | Except.ok _ =>
      match resp.body with
      | BodyModel.jsonBody j => some (errgoNew (remoteErrorString (decodeRemoteError j)))
      | BodyModel.invalid m =>
        some (errgoNew
          ("cannot unmarshal error response (status " ++ resp.status ++ "): " ++ m))
      | BodyModel.readError m =>
        some (errgoNew
          ("cannot unmarshal error response (status " ++ resp.status ++ "): " ++ m))

/-- What the client does with the single response its one transport call
produced (Client.Call after the Doer returns, decode-into-value mode,
default error unmarshaler): 2xx decodes the body, anything else goes to
the error unmarshaler, with a synthesized unexpected-status error when the
unmarshaler yields none. -/
def clientHandleResponse (resp : HttpResponse) : Except GoErr Json :=
  if 200 ≤ resp.statusCode ∧ resp.statusCode < 300 then
    match resp.body with
    | BodyModel.jsonBody j => Except.ok j
    | BodyModel.invalid m => Except.error (errgoNew m)
    | BodyModel.readError m => Except.error (errgoNew m)
  else
    match defaultErrorUnmarshaler resp with
    | some err => Except.error err
    | none =>
      Except.error (errgoNew ("unexpected HTTP response status: " ++ resp.status))

/-- Model of Client.Call after the request has been marshalled: the doer
is a stream of responses it would hand out on successive requests;
the result is paired with the number of HTTP requests the client issued,
so following a redirect would be visible as a second request. -/
def clientCall (doer : List HttpResponse) : (Except GoErr Json) × Nat :=
  match doer with
  | [] => (Except.error (errgoNew "connection error"), 1)
  | resp :: _ => (clientHandleResponse resp, 1)

/-- A recognized source keyword of the tag grammar. -/
def recognizedKw (kw : String) : Prop :=
  kw = "path" ∨ kw = "form" ∨ kw = "body"

instance (kw : String) : Decidable (recognizedKw kw) := by
  unfold recognizedKw
  infer_instance

/-- The source a recognized keyword selects. -/
def sourceOfKw (kw : String) : TagSource :=
  if kw = "path" then TagSource.sourcePath
  else if kw = "form" then TagSource.sourceForm
  else if kw = "body" then TagSource.sourceBody
  else TagSource.sourceNone

/-- The source left after folding a keyword list over a starting source:
each keyword overwrites the previous choice. -/
def lastSourceFrom (s : TagSource) : List String → TagSource
  | [] => s
  | kw :: rest => lastSourceFrom (sourceOfKw kw) rest

theorem parseTagFlags_all_recognized (kws : List String) (t : Tag)
    (h : ∀ kw ∈ kws, recognizedKw kw) :
    parseTagFlags kws t = Except.ok ⟨t.name, lastSourceFrom t.source kws⟩ := by
  induction kws generalizing t with
  | nil => simp [parseTagFlags, lastSourceFrom]
  | cons kw rest ih =>
    have hkw := h kw (List.mem_cons_self kw rest)
    have hrest : ∀ k ∈ rest, recognizedKw k := fun k hk => h k (List.mem_cons_of_mem _ hk)
    rcases hkw with h1 | h1 | h1 <;> subst h1 <;>
      simp [parseTagFlags, lastSourceFrom, sourceOfKw, ih _ hrest]

theorem parseTagFlags_error_iff (kws : List String) (t : Tag) :
    (∃ e, parseTagFlags kws t = Except.error e) ↔ ∃ kw ∈ kws, ¬ recognizedKw kw := by
  induction kws generalizing t with
  | nil =>
    simp [parseTagFlags]
  | cons kw rest ih =>
    by_cases hp : kw = "path"
    · subst hp
      simp [parseTagFlags, ih, recognizedKw]
    · by_cases hf : kw = "form"
      · subst hf
        simp [parseTagFlags, ih, recognizedKw]
      · by_cases hb : kw = "body"
        · subst hb
          simp [parseTagFlags, ih, recognizedKw]
        · simp [parseTagFlags, hp, hf, hb, recognizedKw]

theorem lastSourceFrom_getLast (s : TagSource) (kws : List String) (h : kws ≠ []) :
    lastSourceFrom s kws = sourceOfKw (kws.getLast h) := by
  induction kws generalizing s with
  | nil => exact absurd rfl h
  | cons kw rest ih =>
    match rest with
    | [] => simp [lastSourceFrom, List.getLast]
    | r :: rs =>
      rw [List.getLast_cons (by simp : r :: rs ≠ [])]
      exact ih (sourceOfKw kw) (by simp)

/-- C10: a struct tag whose comma-separated list carries several
recognized source keywords parses without error and the last keyword
listed determines the source; parseTag errors exactly when some keyword
after the first item is not one of path, form, body. -/
theorem parseTag_last_keyword_wins (tagStr fieldName f0 : String) (kws : List String)
    (hne : tagStr ≠ "") (hsplit : splitComma tagStr = f0 :: kws) :
    ((∀ kw ∈ kws, recognizedKw kw) → ∀ h : kws ≠ [],
      parseTag tagStr fieldName =
        Except.ok ⟨if f0 ≠ "" then f0 else fieldName, sourceOfKw (kws.getLast h)⟩)
    ∧ ((∃ e, parseTag tagStr fieldName = Except.error e) ↔
        ∃ kw ∈ kws, ¬ recognizedKw kw) := by
  constructor
  · intro hrec h
    rw [parseTag, if_neg hne, hsplit]
    by_cases h0 : f0 = ""
    · subst h0
      simp only [ne_eq, not_true_eq_false, if_false, ite_false]
      rw [parseTagFlags_all_recognized kws _ hrec, lastSourceFrom_getLast _ _ h]
    · simp only [ne_eq, h0, not_false_eq_true, if_true, ite_true]
      rw [parseTagFlags_all_recognized kws _ hrec, lastSourceFrom_getLast _ _ h]
  · rw [parseTag, if_neg hne, hsplit]
    by_cases h0 : f0 = ""
    · subst h0
      simpa using parseTagFlags_error_iff kws _
    · simpa [h0] using parseTagFlags_error_iff kws _

/-- C10 witness: the tag "x,form,path" parses with source path (the last
keyword), and a tag with an unknown keyword errors. -/
theorem parseTag_last_keyword_wins_witness :
    parseTag "x,form,path" "F" = Except.ok ⟨"x", TagSource.sourcePath⟩ ∧
      (∃ e, parseTag "q,xxx" "F" = Except.error e) := by
  constructor
  · have h := (parseTag_last_keyword_wins "x,form,path" "F" "x" ["form", "path"]
      (by decide) (by decide)).1 (by decide) (by decide)
    rw [h]
    rfl
  · exact (parseTag_last_keyword_wins "q,xxx" "F" "q" ["xxx"]
      (by decide) (by decide)).2.mpr ⟨"xxx", by decide⟩

/-- A concrete codec environment used for closed evaluations: the text
codec echoes its input, scan echoes, printing extracts the string. -/
def trivialCodecs : Codecs :=
  ⟨fun s => Except.ok (GoValue.vText s),
   fun s => Except.ok (GoValue.vOther s),
   fun v => Except.ok (goValueString v),
   fun v => goValueString v⟩

/-- A request carrying nothing: no form values, no path variables, an
empty body. -/
def emptyMParams : MParams :=
  ⟨"GET", "/", "", [], [], BodyModel.invalid "unexpected end of JSON input"⟩

/-- C4: marshal.go (marshalBody, lines 160-177) rejects every method
other than POST and PUT, including GET.  The repository's own test
"marshal to body of a GET request" (and the spec) expect a GET request
with a body field to marshal successfully, so the code contradicts its
own test suite: evaluating Marshal at that test's input yields an error
instead of a request with body "hello test". -/
theorem marshal_body_get_method_rejected :
    MarshalModel trivialCodecs "/u" "GET"
      (GoType.ptrTo [⟨"F1", "", ",body", GoFieldType.stringT, false⟩])
      [GoValue.vStr "hello test"] =
    Except.error
      ⟨"cannot marshal field: trying to marshal to body of a request with method \"GET\"",
        ErrCause.unmarshalError⟩ := by
  rfl

/-- C5 counterexample: the claim says a bare (non-pointer) struct input
succeeds, but parseRequestType rejects everything that is not a pointer
to a struct, so Unmarshal on a bare struct type errors with the
ErrBadUnmarshalType cause. -/
theorem bare_struct_type_rejected :
    UnmarshalModel trivialCodecs emptyMParams
      (GoType.structT [⟨"F1", "", ",form", GoFieldType.stringT, false⟩])
      [GoValue.vStr ""] =
    Except.error
      ⟨"bad type struct: type is not pointer to struct", ErrCause.badUnmarshalType⟩ := by
  rfl

/-- Whether an Except value is a success. -/
def exceptOk {α β : Type} : Except α β → Bool
  | Except.ok _ => true
  | Except.error _ => false

/-- Whether one field passes the per-field checks of the
parseRequestType loop, ignoring the single-body invariant: unexported
fields are skipped, the tag must parse, both codec selections must
succeed, and anonymous fields may carry only body or no source. -/
def fieldConstructOk (f : GoField) : Bool :=
  if f.pkgPath ≠ "" then true
  else
    match parseTag f.tagStr f.name with
    | Except.error _ => false
    | Except.ok tg =>
      exceptOk (getUnmarshaler tg (fieldElemType f.type)) &&
      exceptOk (getMarshaler tg (fieldElemType f.type)) &&
      (!f.anonymous || decide (tg.source = TagSource.sourceBody) ||
        decide (tg.source = TagSource.sourceNone))

/-- Whether a field is an exported field whose tag parses with source
body (the fields the hasBody flag counts). -/
def declaresBody (f : GoField) : Bool :=
  decide (f.pkgPath = "") &&
  (match parseTag f.tagStr f.name with
   | Except.ok tg => decide (tg.source = TagSource.sourceBody)
   | Except.error _ => false)

/-- How many exported fields of the struct declare source body. -/
def bodyCount (s : List GoField) : Nat := (s.filter declaresBody).length

/-- A struct whose fields all pass the per-field checks and which has at
most one exported body field. -/
def structTagsValid (s : GoStruct) : Bool :=
  s.all fieldConstructOk && decide (bodyCount s ≤ 1)


theorem except_match_true {α β : Type} {x : Except α β}
    (h : exceptOk x = true) : ∃ b, x = Except.ok b := by
  cases x with
  | ok b => exact ⟨b, rfl⟩
  | error e => simp [exceptOk] at h

theorem parseFields_ok (l : List (Nat × GoField)) (hasBody : Bool) (acc : List FieldDesc)
    (hok : ∀ nf ∈ l, fieldConstructOk nf.2 = true)
    (hcount : bodyCount (l.map Prod.snd) + (if hasBody then 1 else 0) ≤ 1) :
    ∃ fds, parseFields l hasBody acc = Except.ok fds := by
  induction l generalizing hasBody acc with
  | nil => exact ⟨acc.reverse, rfl⟩
  | cons nf rest ih =>
    obtain ⟨i, f⟩ := nf
    have hf : fieldConstructOk f = true := hok (i, f) (List.mem_cons_self _ _)
    have hrest : ∀ nf ∈ rest, fieldConstructOk nf.2 = true :=
      fun nf hnf => hok nf (List.mem_cons_of_mem _ hnf)
    simp only [List.map_cons] at hcount
    by_cases hexp : f.pkgPath = ""
    · rw [fieldConstructOk, if_neg (by simp [hexp])] at hf
      cases htag : parseTag f.tagStr f.name with
      | error e => rw [htag] at hf; simp at hf
      | ok tg =>
        rw [htag] at hf
        simp only [Bool.and_eq_true] at hf
        obtain ⟨⟨hu, hm⟩, hanon⟩ := hf
        obtain ⟨uk, huk⟩ := except_match_true hu
        obtain ⟨mk, hmk⟩ := except_match_true hm
        have hdb : declaresBody f = decide (tg.source = TagSource.sourceBody) := by
          simp [declaresBody, hexp, htag]
        by_cases hbody : tg.source = TagSource.sourceBody
        · have hcount2 : bodyCount (f :: rest.map Prod.snd) =
              bodyCount (rest.map Prod.snd) + 1 := by
            simp [bodyCount, List.filter_cons, hdb, hbody]
          rw [hcount2] at hcount
          have hhb : hasBody = false := by
            cases hasBody with
            | false => rfl
            | true => simp at hcount
          subst hhb
          have hcr : bodyCount (rest.map Prod.snd) = 0 := by omega
          have step : parseFields ((i, f) :: rest) false acc =
              parseFields rest true
                (⟨i, fieldIsPtr f.type, fieldElemType f.type, uk, mk⟩ :: acc) := by
            simp [parseFields, hexp, htag, hbody]
            rw [huk, hmk]
          rw [step]
          exact ih true _ hrest (by simp [hcr])
        · have hcount2 : bodyCount (f :: rest.map Prod.snd) =
              bodyCount (rest.map Prod.snd) := by
            simp [bodyCount, List.filter_cons, hdb, hbody]
          rw [hcount2] at hcount
          have hanon2 : ¬(f.anonymous = true ∧ tg.source ≠ TagSource.sourceBody ∧
              tg.source ≠ TagSource.sourceNone) := by
            intro hcon
            obtain ⟨ha, _, hn⟩ := hcon
            simp [ha, hbody, hn] at hanon
          have step : parseFields ((i, f) :: rest) hasBody acc =
              parseFields rest (hasBody || decide (tg.source = TagSource.sourceBody))
                (⟨i, fieldIsPtr f.type, fieldElemType f.type, uk, mk⟩ :: acc) := by
            simp only [parseFields, htag]
            rw [if_neg (by simp [hexp]), if_neg (by simp [hbody]), huk, hmk]
            show (if f.anonymous = true ∧ tg.source ≠ TagSource.sourceBody ∧
                tg.source ≠ TagSource.sourceNone then
                Except.error (errgoNew "httprequest tag not yet supported on anonymous fields")
              else parseFields rest (hasBody || decide (tg.source = TagSource.sourceBody))
                (⟨i, fieldIsPtr f.type, fieldElemType f.type, uk, mk⟩ :: acc)) =
              parseFields rest (hasBody || decide (tg.source = TagSource.sourceBody))
                (⟨i, fieldIsPtr f.type, fieldElemType f.type, uk, mk⟩ :: acc)
            rw [if_neg hanon2]
          rw [step]
          exact ih _ _ hrest (by simpa [hbody] using hcount)
    · have hdb : declaresBody f = false := by simp [declaresBody, hexp]
      have step : parseFields ((i, f) :: rest) hasBody acc =
          parseFields rest hasBody acc := by
        rw [parseFields, if_pos (by simpa using hexp)]
      rw [step]
      apply ih _ _ hrest
      have hcount2 : bodyCount (f :: rest.map Prod.snd) =
          bodyCount (rest.map Prod.snd) := by
        simp [bodyCount, List.filter_cons, hdb]
      rw [hcount2] at hcount
      exact hcount

theorem parseFields_dup_body (l : List (Nat × GoField)) (hasBody : Bool) (acc : List FieldDesc)
    (hok : ∀ nf ∈ l, fieldConstructOk nf.2 = true)
    (hcount : 2 ≤ bodyCount (l.map Prod.snd) + (if hasBody then 1 else 0)) :
    parseFields l hasBody acc =
      Except.error (errgoNew "more than one body field specified") := by
  induction l generalizing hasBody acc with
  | nil =>
    exfalso
    simp only [List.map_nil, bodyCount, List.filter_nil, List.length_nil] at hcount
    cases hasBody <;> simp at hcount
  | cons nf rest ih =>
    obtain ⟨i, f⟩ := nf
    have hf : fieldConstructOk f = true := hok (i, f) (List.mem_cons_self _ _)
    have hrest : ∀ nf ∈ rest, fieldConstructOk nf.2 = true :=
      fun nf hnf => hok nf (List.mem_cons_of_mem _ hnf)
    simp only [List.map_cons] at hcount
    by_cases hexp : f.pkgPath = ""
    · rw [fieldConstructOk, if_neg (by simp [hexp])] at hf
      cases htag : parseTag f.tagStr f.name with
      | error e => rw [htag] at hf; simp at hf
      | ok tg =>
        rw [htag] at hf
        simp only [Bool.and_eq_true] at hf
        obtain ⟨⟨hu, hm⟩, hanon⟩ := hf
        obtain ⟨uk, huk⟩ := except_match_true hu
        obtain ⟨mk, hmk⟩ := except_match_true hm
        have hdb : declaresBody f = decide (tg.source = TagSource.sourceBody) := by
          simp [declaresBody, hexp, htag]
        by_cases hbody : tg.source = TagSource.sourceBody
        · have hcount2 : bodyCount (f :: rest.map Prod.snd) =
              bodyCount (rest.map Prod.snd) + 1 := by
            simp [bodyCount, List.filter_cons, hdb, hbody]
          rw [hcount2] at hcount
          cases hhb : hasBody with
          | true =>
            subst hhb
            simp [parseFields, hexp, htag, hbody]
          | false =>
            subst hhb
            have step : parseFields ((i, f) :: rest) false acc =
                parseFields rest true
                  (⟨i, fieldIsPtr f.type, fieldElemType f.type, uk, mk⟩ :: acc) := by
              simp [parseFields, hexp, htag, hbody]
              rw [huk, hmk]
            rw [step]
            apply ih _ _ hrest
            simp at hcount ⊢
            omega
        · have hcount2 : bodyCount (f :: rest.map Prod.snd) =
              bodyCount (rest.map Prod.snd) := by
            simp [bodyCount, List.filter_cons, hdb, hbody]
          rw [hcount2] at hcount
          have hanon2 : ¬(f.anonymous = true ∧ tg.source ≠ TagSource.sourceBody ∧
              tg.source ≠ TagSource.sourceNone) := by
            intro hcon
            obtain ⟨ha, _, hn⟩ := hcon
            simp [ha, hbody, hn] at hanon
          have step : parseFields ((i, f) :: rest) hasBody acc =
              parseFields rest (hasBody || decide (tg.source = TagSource.sourceBody))
                (⟨i, fieldIsPtr f.type, fieldElemType f.type, uk, mk⟩ :: acc) := by
            simp only [parseFields, htag]
            rw [if_neg (by simp [hexp]), if_neg (by simp [hbody]), huk, hmk]
            show (if f.anonymous = true ∧ tg.source ≠ TagSource.sourceBody ∧
                tg.source ≠ TagSource.sourceNone then
                Except.error (errgoNew "httprequest tag not yet supported on anonymous fields")
              else parseFields rest (hasBody || decide (tg.source = TagSource.sourceBody))
                (⟨i, fieldIsPtr f.type, fieldElemType f.type, uk, mk⟩ :: acc)) =
              parseFields rest (hasBody || decide (tg.source = TagSource.sourceBody))
                (⟨i, fieldIsPtr f.type, fieldElemType f.type, uk, mk⟩ :: acc)
            rw [if_neg hanon2]
          rw [step]
          apply ih _ _ hrest
          simpa [hbody] using hcount
    · have hdb : declaresBody f = false := by simp [declaresBody, hexp]
      rw [parseFields, if_pos (by simpa using hexp)]
      apply ih _ _ hrest
      have hcount2 : bodyCount (f :: rest.map Prod.snd) =
          bodyCount (rest.map Prod.snd) := by
        simp [bodyCount, List.filter_cons, hdb]
      rw [hcount2] at hcount
      exact hcount

/-- C2: a structure with two or more exported body-declaring fields
(whose fields each pass the per-field checks) fails type-descriptor
construction with the error "more than one body field specified", and
both Unmarshal and Marshal stop with an ErrBadUnmarshalType-caused error
carrying that message instead of proceeding. -/
theorem duplicate_body_fields_error (ts : GoStruct) (env : Codecs) (p : MParams)
    (x : List GoValue) (basePath method : String)
    (hok : ∀ f ∈ ts, fieldConstructOk f = true)
    (h2 : 2 ≤ bodyCount ts) :
    parseRequestType (GoType.ptrTo ts) =
        Except.error (errgoNew "more than one body field specified") ∧
    UnmarshalModel env p (GoType.ptrTo ts) x =
        Except.error ⟨"bad type *struct: more than one body field specified",
          ErrCause.badUnmarshalType⟩ ∧
    MarshalModel env basePath method (GoType.ptrTo ts) x =
        Except.error ⟨"bad type *struct: more than one body field specified",
          ErrCause.badUnmarshalType⟩ := by
  have henum : ts.enum.map Prod.snd = ts := List.enum_map_snd ts
  have hp : parseRequestType (GoType.ptrTo ts) =
      Except.error (errgoNew "more than one body field specified") := by
    rw [parseRequestType]
    apply parseFields_dup_body
    · intro nf hnf
      apply hok nf.2
      rw [← henum]
      exact List.mem_map_of_mem _ hnf
    · rw [henum]
      simpa using h2
  refine ⟨hp, ?_, ?_⟩
  · simp [UnmarshalModel, getRequestType, hp, withCauseBadType, errgoNew, goTypeName]
  · simp [MarshalModel, getRequestType, hp, withCauseBadType, errgoNew, goTypeName]

/-- C2 witness: the duplicated-body struct of the repository's own test
(two exported fields tagged body) is rejected with the expected message
and Unmarshal refuses to proceed. -/
theorem duplicate_body_fields_error_witness :
    parseRequestType (GoType.ptrTo
        [⟨"B1", "", ",body", GoFieldType.scanT "int", false⟩,
         ⟨"B2", "", ",body", GoFieldType.stringT, false⟩]) =
      Except.error (errgoNew "more than one body field specified") ∧
    UnmarshalModel trivialCodecs emptyMParams (GoType.ptrTo
        [⟨"B1", "", ",body", GoFieldType.scanT "int", false⟩,
         ⟨"B2", "", ",body", GoFieldType.stringT, false⟩])
        [GoValue.vOther "", GoValue.vStr ""] =
      Except.error ⟨"bad type *struct: more than one body field specified",
        ErrCause.badUnmarshalType⟩ := by
  have h := duplicate_body_fields_error
    [⟨"B1", "", ",body", GoFieldType.scanT "int", false⟩,
     ⟨"B2", "", ",body", GoFieldType.stringT, false⟩]
    trivialCodecs emptyMParams [GoValue.vOther "", GoValue.vStr ""] "/" "GET"
    (by decide) (by decide)
  exact ⟨h.1, h.2.1⟩

/-- C5 (amended): parseRequestType accepts only pointer-to-struct types:
any other input - including a bare struct - makes Unmarshal and Marshal
return an error with the ErrBadUnmarshalType cause, while a
pointer-to-struct whose tags are valid constructs its descriptor
successfully. -/
theorem request_type_guard :
    (∀ (t : GoType) (env : Codecs) (p : MParams) (x : List GoValue)
        (basePath method : String),
      (∀ s : GoStruct, t ≠ GoType.ptrTo s) →
        UnmarshalModel env p t x =
          Except.error ⟨"bad type " ++ goTypeName t ++ ": type is not pointer to struct",
            ErrCause.badUnmarshalType⟩ ∧
        MarshalModel env basePath method t x =
          Except.error ⟨"bad type " ++ goTypeName t ++ ": type is not pointer to struct",
            ErrCause.badUnmarshalType⟩)
    ∧ (∀ s : GoStruct, structTagsValid s = true →
        ∃ fds, parseRequestType (GoType.ptrTo s) = Except.ok fds) := by
  constructor
  · intro t env p x basePath method hnp
    have hp : parseRequestType t = Except.error (errgoNew "type is not pointer to struct") := by
      cases t with
      | ptrTo s => exact absurd rfl (hnp s)
      | structT s => rfl
      | otherT n => rfl
    constructor
    · simp [UnmarshalModel, getRequestType, hp, withCauseBadType, errgoNew,
        String.append_assoc]
    · simp [MarshalModel, getRequestType, hp, withCauseBadType, errgoNew,
        String.append_assoc]
  · intro s hv
    rw [structTagsValid, Bool.and_eq_true] at hv
    obtain ⟨hall, hcnt⟩ := hv
    rw [parseRequestType]
    apply parseFields_ok
    · intro nf hnf
      apply List.all_eq_true.mp hall nf.2
      rw [← List.enum_map_snd s]
      exact List.mem_map_of_mem _ hnf
    · rw [List.enum_map_snd]
      simpa using of_decide_eq_true hcnt

/-- C5 witness: a non-struct type (int) is rejected with the
ErrBadUnmarshalType cause, and a valid one-field pointer-to-struct type
constructs successfully. -/
theorem request_type_guard_witness :
    UnmarshalModel trivialCodecs emptyMParams (GoType.otherT "int") [] =
      Except.error ⟨"bad type int: type is not pointer to struct",
        ErrCause.badUnmarshalType⟩ ∧
    (∃ fds, parseRequestType
        (GoType.ptrTo [⟨"F1", "", ",form", GoFieldType.stringT, false⟩]) =
      Except.ok fds) := by
  constructor
  · have h := (request_type_guard.1 (GoType.otherT "int") trivialCodecs emptyMParams []
      "/" "GET" (fun s hcon => GoType.noConfusion hcon)).1
    simpa using h
  · exact request_type_guard.2 [⟨"F1", "", ",form", GoFieldType.stringT, false⟩]
      (by decide)

/-- The text codec of the repository's own test type
exclamationUnmarshaler: empty input is an error, anything else gets an
exclamation mark appended. -/
def exclamationCodecs : Codecs :=
  ⟨fun s => if s = "" then Except.error "empty string!"
            else Except.ok (GoValue.vText (s ++ "!")),
   fun s => Except.ok (GoValue.vOther s),
   fun v => Except.ok (goValueString v),
   fun v => goValueString v⟩

/-- C3 counterexample: a form-sourced field whose type implements
encoding.TextUnmarshaler is a path/form-sourced field, yet with the
parameter absent Unmarshal returns an error (the codec rejects the empty
input it is handed), contradicting "absence is not an error" as
universally stated. -/
theorem absent_text_codec_field_errors :
    UnmarshalModel exclamationCodecs emptyMParams
      (GoType.ptrTo [⟨"F", "", ",form",
        GoFieldType.textT "exclamationUnmarshaler", false⟩])
      [GoValue.vText ""] =
      Except.error ⟨"cannot unmarshal into field: empty string!",
        ErrCause.unmarshalError⟩ := by
  rfl

/-- C3 (amended): for a path- or form-sourced field handled by the plain
string codec (unmarshalString) or the scan fallback (unmarshalWithScan),
an absent parameter leaves the field untouched - so a fresh field stays
at its zero value - with no error, and a present parameter sets a string
field to the first matching value; fields with a TextUnmarshaler codec
are excluded (their codec runs even on absence, see the counterexample). -/
theorem string_scan_fields_absent_untouched (env : Codecs) (tg : Tag)
    (isPtr : Bool) (elemT : GoFieldType) (v : GoValue) (p : MParams)
    (hsrc : tg.source = TagSource.sourcePath ∨ tg.source = TagSource.sourceForm) :
    (getUnmarshaler tg GoFieldType.stringT = Except.ok (UnmarshalerKind.stringU tg)) ∧
    (formGet tg.source tg.name p = none →
      runUnmarshaler env (UnmarshalerKind.stringU tg) isPtr elemT v p = Except.ok v ∧
      runUnmarshaler env (UnmarshalerKind.scanU tg) isPtr elemT v p = Except.ok v) ∧
    (∀ val, formGet tg.source tg.name p = some val →
      runUnmarshaler env (UnmarshalerKind.stringU tg) isPtr elemT v p =
        Except.ok (putCell isPtr v (GoValue.vStr val))) := by
  refine ⟨?_, ?_, ?_⟩
  · rcases hsrc with h | h <;> simp [getUnmarshaler, h]
  · intro habsent
    constructor
    · rw [runUnmarshaler, habsent]
    · rw [runUnmarshaler, habsent]
  · intro val hval
    rw [runUnmarshaler, hval]

/-- C3 witness: an absent form parameter leaves a string field alone
with no error, and a present one sets it to the first value. -/
theorem string_scan_fields_absent_untouched_witness :
    runUnmarshaler trivialCodecs (UnmarshalerKind.stringU ⟨"F", TagSource.sourceForm⟩)
      false GoFieldType.stringT (GoValue.vStr "") emptyMParams =
      Except.ok (GoValue.vStr "") ∧
    runUnmarshaler trivialCodecs (UnmarshalerKind.stringU ⟨"F", TagSource.sourceForm⟩)
      false GoFieldType.stringT (GoValue.vStr "")
      ⟨"GET", "/", "", [("F", ["a", "b"])], [], BodyModel.invalid ""⟩ =
      Except.ok (GoValue.vStr "a") := by
  constructor
  · exact ((string_scan_fields_absent_untouched trivialCodecs ⟨"F", TagSource.sourceForm⟩
      false GoFieldType.stringT (GoValue.vStr "") emptyMParams
      (Or.inr rfl)).2.1 (by decide)).1
  · exact (string_scan_fields_absent_untouched trivialCodecs ⟨"F", TagSource.sourceForm⟩
      false GoFieldType.stringT (GoValue.vStr "")
      ⟨"GET", "/", "", [("F", ["a", "b"])], [], BodyModel.invalid ""⟩
      (Or.inr rfl)).2.2 "a" (by decide)

/-- C6: a path/form field whose type implements encoding.TextUnmarshaler
gets the textual codec, and on an absent parameter the codec is invoked
with the empty input - its own verdict (error or value) becomes the
result - whereas the scan fallback is skipped entirely on absence. -/
theorem text_codec_invoked_on_empty (env : Codecs) (tg : Tag) (tn : String)
    (isPtr : Bool) (elemT : GoFieldType) (v : GoValue) (p : MParams)
    (hsrc : tg.source = TagSource.sourcePath ∨ tg.source = TagSource.sourceForm)
    (habsent : formGet tg.source tg.name p = none) :
    (getUnmarshaler tg (GoFieldType.textT tn) = Except.ok (UnmarshalerKind.textU tg)) ∧
    runUnmarshaler env (UnmarshalerKind.textU tg) isPtr elemT v p =
      (match env.unmarshalText "" with
       | Except.error e => Except.error (errgoNew e)
       | Except.ok u => Except.ok (putCell isPtr v u)) ∧
    runUnmarshaler env (UnmarshalerKind.scanU tg) isPtr elemT v p = Except.ok v := by
  refine ⟨?_, ?_, ?_⟩
  · rcases hsrc with h | h <;> simp [getUnmarshaler, h, implementsTextUnmarshaler]
  · rw [runUnmarshaler, habsent]
    rfl
  · rw [runUnmarshaler, habsent]

/-- C6 witness: with the test's exclamation codec, the absent parameter
still reaches the codec (which rejects empty input), while the scan
fallback is skipped without error. -/
theorem text_codec_invoked_on_empty_witness :
    runUnmarshaler exclamationCodecs (UnmarshalerKind.textU ⟨"F", TagSource.sourceForm⟩)
      false (GoFieldType.textT "T") (GoValue.vText "") emptyMParams =
      Except.error (errgoNew "empty string!") ∧
    runUnmarshaler exclamationCodecs (UnmarshalerKind.scanU ⟨"F", TagSource.sourceForm⟩)
      false (GoFieldType.textT "T") (GoValue.vText "") emptyMParams =
      Except.ok (GoValue.vText "") := by
  have h := text_codec_invoked_on_empty exclamationCodecs ⟨"F", TagSource.sourceForm⟩ "T"
    false (GoFieldType.textT "T") (GoValue.vText "") emptyMParams
    (Or.inr rfl) (by decide)
  refine ⟨?_, h.2.2⟩
  rw [h.2.1]
  rfl

/-- A scan codec for int fields that rejects non-numeric text, used to
drive unmarshal failures in witnesses. -/
def badIntCodecs : Codecs :=
  ⟨fun s => Except.ok (GoValue.vText s),
   fun _ => Except.error "expected integer",
   fun v => Except.ok (goValueString v),
   fun v => goValueString v⟩

/-- An error mapper rendering the error message into a JSON object, like
the exampleErrorMapper of the repository's examples. -/
def exampleMapper : ErrorMapperModel :=
  fun err => (500, Json.obj [("Message", Json.str err.msg)])

/-- C7: when unmarshalling the request parameters into the argument
structure fails, a handler produced by ErrorMapper.Handle never invokes
the wrapped function - the written response is the same whatever
function of whatever accepted shape was wrapped - and the unmarshal
error, annotated "cannot unmarshal parameters", is routed through the
error mapper and written as the JSON response. -/
theorem handler_skips_function_on_unmarshal_error (env : Codecs)
    (em : ErrorMapperModel) (argType : GoStruct) (fds : List FieldDesc)
    (req : MParams) (e : GoErr)
    (_hpt : parseRequestType (GoType.ptrTo argType) = Except.ok fds)
    (hfail : unmarshalLoop env req (zeroStruct argType) fds = Except.error e) :
    (∀ fn fn2, handleModel env em argType fds fn none req =
        handleModel env em argType fds fn2 none req) ∧
    (∀ fn, handleModel env em argType fds fn none req =
        some (writeError em (noteMaskIsUnmarshal e "cannot unmarshal parameters"))) := by
  have key : ∀ fn, handleModel env em argType fds fn none req =
      some (writeError em (noteMaskIsUnmarshal e "cannot unmarshal parameters")) := by
    intro fn
    simp [handleModel, hfail]
  exact ⟨fun fn fn2 => by rw [key fn, key fn2], key⟩

/-- C7 witness: a handler over a struct with an int form field, given an
unparsable value, writes the mapped unmarshal error regardless of the
wrapped function. -/
theorem handler_skips_function_on_unmarshal_error_witness :
    handleModel badIntCodecs exampleMapper
      [⟨"A", "", ",form", GoFieldType.scanT "int", false⟩]
      [⟨0, false, GoFieldType.scanT "int",
        UnmarshalerKind.scanU ⟨"A", TagSource.sourceForm⟩,
        MarshalerKind.sprintM ⟨"A", TagSource.sourceForm⟩⟩]
      (HandlerFn.h2 (fun _ => (Json.num 1234, none))) none
      ⟨"GET", "/", "", [("A", ["not an int"])], [], BodyModel.invalid ""⟩ =
      some ⟨500, "application/json", Json.obj [("Message", Json.str
        ("cannot unmarshal parameters: cannot unmarshal into field: " ++
          "cannot parse \"not an int\" into int: expected integer"))]⟩ := by
  have h := (handler_skips_function_on_unmarshal_error badIntCodecs exampleMapper
    [⟨"A", "", ",form", GoFieldType.scanT "int", false⟩]
    [⟨0, false, GoFieldType.scanT "int",
      UnmarshalerKind.scanU ⟨"A", TagSource.sourceForm⟩,
      MarshalerKind.sprintM ⟨"A", TagSource.sourceForm⟩⟩]
    ⟨"GET", "/", "", [("A", ["not an int"])], [], BodyModel.invalid ""⟩
    ⟨"cannot unmarshal into field: cannot parse \"not an int\" into int: " ++
      "expected integer", ErrCause.unmarshalError⟩
    (by rfl) (by rfl)).2
  rw [h (HandlerFn.h2 (fun _ => (Json.num 1234, none)))]
  rfl

/-- C8: a 3xx response handed to the client's default error unmarshaler
becomes an unexpected-redirect error naming the source and destination
URLs, and the client issues exactly one HTTP request - the redirect is
never followed. -/
theorem client_redirect_not_followed (resp : HttpResponse)
    (rest : List HttpResponse)
    (h3 : 300 ≤ resp.statusCode ∧ resp.statusCode < 400) :
    clientCall (resp :: rest) =
      (Except.error (errgoNew ("unexpected redirect (status " ++ resp.status ++
        ") from \"" ++ resp.requestURL ++ "\" to \"" ++ resp.location ++ "\"")), 1) := by
  have h2 : ¬(200 ≤ resp.statusCode ∧ resp.statusCode < 300) := by omega
  rw [clientCall, clientHandleResponse, if_neg h2, defaultErrorUnmarshaler, if_pos h3]

/-- C8 witness: a 307 response produces the redirect error after a
single request. -/
theorem client_redirect_not_followed_witness :
    clientCall [⟨307, "307 Temporary Redirect", "http://example.com/a",
        "http://example.com/b", "text/html", BodyModel.invalid ""⟩] =
      (Except.error (errgoNew ("unexpected redirect (status 307 Temporary Redirect) " ++
        "from \"http://example.com/a\" to \"http://example.com/b\"")), 1) := by
  rw [client_redirect_not_followed _ [] (by decide)]
  rfl

/-- A string without path placeholders: no colon and no star. -/
def noPlaceholder (s : String) : Bool :=
  s.data.all (fun c => !(c = ':' ∨ c = '*'))

theorem substGo_no_placeholder (path : List Char) (pv : List (String × String))
    (rem : List Char) (i offset : Nat) (buf : List Char)
    (hrem : ∀ c ∈ rem, ¬(c = ':' ∨ c = '*')) :
    substGo path pv rem i offset false buf = Except.ok (buf ++ path) := by
  induction rem generalizing i with
  | nil => rfl
  | cons c rest ih =>
    have hc := hrem c (List.mem_cons_self _ _)
    rw [substGo, if_pos (by push_neg at hc; exact hc)]
    exact ih (i + 1) (fun c2 hc2 => hrem c2 (List.mem_cons_of_mem _ hc2))

theorem substPath_no_placeholder (s : String) (pv : List (String × String))
    (h : noPlaceholder s = true) :
    substPath s pv = Except.ok s := by
  rw [substPath, substGo_no_placeholder]
  · rfl
  · intro c hc
    have := List.all_eq_true.mp h c hc
    simpa using this

/-- C1: for a structure whose single field is body-tagged and holds a
JSON-serializable value, marshalling (with a body-admitting method and a
placeholder-free base path) and unmarshalling the produced request into
a fresh zero structure returns exactly the original value, whatever JSON
document - object (struct or map) or primitive - the field holds. -/
theorem marshal_unmarshal_body_roundtrip (env : Codecs)
    (fname tagStr tn basePath method : String) (tg : Tag) (j : Json)
    (htag : parseTag tagStr fname = Except.ok tg)
    (hbody : tg.source = TagSource.sourceBody)
    (hm : method = "POST" ∨ method = "PUT")
    (hclean : noPlaceholder basePath = true) :
    ∃ req, MarshalModel env basePath method
        (GoType.ptrTo [⟨fname, "", tagStr, GoFieldType.jsonT tn, false⟩])
        [GoValue.vJson j] = Except.ok req ∧
      UnmarshalModel env req
        (GoType.ptrTo [⟨fname, "", tagStr, GoFieldType.jsonT tn, false⟩])
        (zeroStruct [⟨fname, "", tagStr, GoFieldType.jsonT tn, false⟩]) =
        Except.ok [GoValue.vJson j] := by
  have hpt : parseRequestType
      (GoType.ptrTo [⟨fname, "", tagStr, GoFieldType.jsonT tn, false⟩]) =
      Except.ok [⟨0, false, GoFieldType.jsonT tn,
        UnmarshalerKind.bodyU, MarshalerKind.bodyM⟩] := by
    simp [parseRequestType, parseFields, htag, hbody, getUnmarshaler, getMarshaler,
      fieldElemType, fieldIsPtr]
  have hsub : substPath basePath ([] : List (String × String)) = Except.ok basePath :=
    substPath_no_placeholder basePath [] hclean
  refine ⟨⟨method, basePath, "", [], [], BodyModel.jsonBody j⟩, ?_, ?_⟩
  · rcases hm with hm | hm <;> subst hm <;>
      simp [MarshalModel, getRequestType, hpt, marshalCore, marshalFields, runMarshaler,
        marshalBody, dereferenceIfPointer, fieldByIndex, initParams, hsub, goJsonEncode,
        formEncode] <;> rfl
  · simp [UnmarshalModel, getRequestType, hpt, unmarshalLoop, runUnmarshaler,
      unmarshalBody, zeroStruct, zeroValue, fieldByIndex, jsonDecode, putCell]

/-- C1 witness: a concrete object body round-trips through a POST
request. -/
theorem marshal_unmarshal_body_roundtrip_witness :
    ∃ req, MarshalModel trivialCodecs "/u" "POST"
        (GoType.ptrTo [⟨"F1", "", ",body", GoFieldType.jsonT "M", false⟩])
        [GoValue.vJson (Json.obj [("name", Json.str "bob")])] = Except.ok req ∧
      UnmarshalModel trivialCodecs req
        (GoType.ptrTo [⟨"F1", "", ",body", GoFieldType.jsonT "M", false⟩])
        (zeroStruct [⟨"F1", "", ",body", GoFieldType.jsonT "M", false⟩]) =
        Except.ok [GoValue.vJson (Json.obj [("name", Json.str "bob")])] :=
  marshal_unmarshal_body_roundtrip trivialCodecs "F1" ",body" "M" "/u" "POST"
    ⟨"F1", TagSource.sourceBody⟩ (Json.obj [("name", Json.str "bob")])
    (by rfl) rfl (Or.inl rfl) (by decide)

/-- A literal template piece: free of colon and star. -/
def cleanLit (s : String) : Bool :=
  s.data.all (fun c => !(c = ':' ∨ c = '*'))

/-- A placeholder name: nonempty and free of colon, star and slash, so
the placeholder ends exactly where the inner scan of the loop stops. -/
def cleanName (n : String) : Bool :=
  !(n = "") && n.data.all (fun c => !(c = ':' ∨ c = '*' ∨ c = '/'))

/-- A literal that may follow a placeholder: empty, or starting with the
slash that terminates the placeholder name. -/
def litOkAfter (l : String) : Bool :=
  l = "" || (l.data.head? = some '/' && cleanLit l)

/-- Well-formedness of the (name, following-literal) segments of a path
template. -/
def wfSegs : List (String × String) → Bool
  | [] => true
  | (n, l) :: more => cleanName n && litOkAfter l && wfSegs more

/-- Renders the placeholder segments: each contributes ":name" followed
by its literal. -/
def renderSegs : List (String × String) → String
  | [] => ""
  | (n, l) :: more => ":" ++ n ++ l ++ renderSegs more

/-- A path template: a leading literal followed by placeholder
segments. -/
def renderTemplate (lit0 : String) (segs : List (String × String)) : String :=
  lit0 ++ renderSegs segs

/-- The first placeholder name with no binding, scanning left to
right. -/
def firstUnbound (pv : List (String × String)) : List (String × String) → Option String
  | [] => none
  | (n, _) :: more =>
    match paramsByName pv n with
    | none => some n
    | some _ => firstUnbound pv more

/-- The characters the loop flushes for fully bound segments: each bound
value followed by its literal, except that the literal of the final
segment is never flushed (the loop leaves the text after the last
placeholder behind). -/
def boundVals (pv : List (String × String)) : List (String × String) → List Char
  | [] => []
  | (n, l) :: more =>
    ((paramsByName pv n).getD "").data ++
      (if more = [] then [] else l.data ++ boundVals pv more)

/-- What the substitution loop produces from a segment boundary onward:
drains the segments, flushing the pending literal and the bound value,
or stopping at the first unbound name. -/
def substOutcome (path : List Char) (pv : List (String × String)) :
    List (String × String) → String → List Char → Bool → Except GoErr (List Char)
  | [], _, buf, hp => if !hp then Except.ok (buf ++ path) else Except.ok buf
  | (n, l) :: more, lit, buf, _ =>
    match paramsByName pv n with
    | none =>
      Except.error (errgoNew ("missing value for path parameter \"" ++ n ++ "\""))
    | some v => substOutcome path pv more l (buf ++ lit.data ++ v.data) true

theorem substGo_skip (path : List Char) (pv : List (String × String))
    (skip rem2 : List Char) (i offset : Nat) (hp : Bool) (buf : List Char)
    (j : Nat) (hj : j = i + skip.length)
    (hskip : ∀ c ∈ skip, ¬(c = ':' ∨ c = '*')) :
    substGo path pv (skip ++ rem2) i offset hp buf =
      substGo path pv rem2 j offset hp buf := by
  induction skip generalizing i with
  | nil =>
    simp only [List.length_nil, Nat.add_zero] at hj
    subst hj
    simp
  | cons c rest ih =>
    have hc := hskip c (List.mem_cons_self _ _)
    rw [List.cons_append, substGo, if_pos (by push_neg at hc; exact hc)]
    exact ih (i + 1) (by simp at hj; omega)
      (fun c2 hc2 => hskip c2 (List.mem_cons_of_mem _ hc2))

theorem scanLen_stop (l : List Char)
    (h : l = [] ∨ ∃ c cs, l = c :: cs ∧ (c = ':' ∨ c = '/')) : scanLen l = 0 := by
  rcases h with h | ⟨c, cs, rfl, hc⟩
  · subst h; rfl
  · rcases hc with hc | hc <;> subst hc <;> rfl

theorem scanLen_append (nd after : List Char)
    (hnd : ∀ c ∈ nd, ¬(c = ':' ∨ c = '/'))
    (hafter : scanLen after = 0) : scanLen (nd ++ after) = nd.length := by
  induction nd with
  | nil => simpa using hafter
  | cons c rest ih =>
    have hc := hnd c (List.mem_cons_self _ _)
    rw [List.cons_append, scanLen, if_pos (by push_neg at hc; exact hc)]
    rw [ih (fun c2 hc2 => hnd c2 (List.mem_cons_of_mem _ hc2))]
    simp

theorem sliceChars_of_drop (path : List Char) (offset : Nat) (xs ys : List Char)
    (hdrop : path.drop offset = xs ++ ys) :
    sliceChars path offset (offset + xs.length) = xs := by
  rw [sliceChars, hdrop, Nat.add_sub_cancel_left, List.take_left]

theorem drop_add (path : List Char) (a b : Nat) :
    path.drop (a + b) = (path.drop a).drop b := (List.drop_drop b a path).symm

theorem substGo_placeholder_step (path : List Char) (pv : List (String × String))
    (n l : String) (rsd : List Char) (offset : Nat) (lit : String)
    (hp : Bool) (buf : List Char)
    (hdrop : path.drop offset = lit.data ++ (':' :: (n.data ++ (l.data ++ rsd))))
    (hn_ne : n.data ≠ [])
    (hnchars : ∀ c ∈ n.data, ¬(c = ':' ∨ c = '*' ∨ c = '/'))
    (hstop : scanLen (l.data ++ rsd) = 0) :
    substGo path pv (':' :: (n.data ++ (l.data ++ rsd)))
        (offset + lit.data.length) offset hp buf =
      match paramsByName pv n with
      | none =>
        Except.error (errgoNew ("missing value for path parameter \"" ++ n ++ "\""))
      | some v =>
        substGo path pv (l.data ++ rsd)
          (offset + lit.data.length + 1 + n.data.length)
          (offset + lit.data.length + 1 + n.data.length) true
          ((buf ++ lit.data) ++ v.data) := by
  have hscan : scanLen (n.data ++ (l.data ++ rsd)) = n.data.length :=
    scanLen_append _ _
      (fun c hc => by have := hnchars c hc; push_neg at this ⊢; exact ⟨this.1, this.2.2⟩)
      hstop
  have hlen1 : 1 ≤ n.data.length := List.length_pos.mpr hn_ne
  have hbuf : (if offset + lit.data.length > 0 then
      buf ++ sliceChars path offset (offset + lit.data.length) else buf) =
      buf ++ lit.data := by
    by_cases hi : 0 < offset + lit.data.length
    · rw [if_pos hi, sliceChars_of_drop path offset lit.data _ hdrop]
    · rw [if_neg hi]
      have hz : lit.data = [] := by
        have : lit.data.length = 0 := by omega
        exact List.eq_nil_of_length_eq_zero this
      rw [hz, List.append_nil]
  have hdrop2 : path.drop (offset + lit.data.length + 1) =
      n.data ++ (l.data ++ rsd) := by
    have h1 : path.drop (offset + lit.data.length + 1) =
        (path.drop offset).drop (lit.data.length + 1) :=
      drop_add path offset (lit.data.length + 1)
    rw [h1, hdrop]
    have h2 : lit.data ++ ':' :: (n.data ++ (l.data ++ rsd)) =
        (lit.data ++ [':']) ++ (n.data ++ (l.data ++ rsd)) := by simp
    rw [h2]
    have hlen : lit.data.length + 1 = (lit.data ++ [':']).length := by simp
    rw [hlen, List.drop_left]
  have hslice2 : sliceChars path (offset + lit.data.length + 1)
      (offset + lit.data.length + 1 + n.data.length) = n.data :=
    sliceChars_of_drop path _ n.data _ hdrop2
  rw [substGo, if_neg (by simp)]
  simp only [hscan]
  rw [if_neg (by simp), if_neg (by omega)]
  rw [hslice2, hbuf]
  have hmk : String.mk n.data = n := rfl
  rw [hmk]
  cases hpm : paramsByName pv n with
  | none => rfl
  | some v =>
    show substGo path pv (n.data ++ (l.data ++ rsd)) (offset + lit.data.length + 1)
        (offset + lit.data.length + 1 + n.data.length) true
        ((buf ++ lit.data) ++ v.data) =
      substGo path pv (l.data ++ rsd) (offset + lit.data.length + 1 + n.data.length)
        (offset + lit.data.length + 1 + n.data.length) true ((buf ++ lit.data) ++ v.data)
    exact substGo_skip path pv n.data (l.data ++ rsd) (offset + lit.data.length + 1)
      (offset + lit.data.length + 1 + n.data.length) true ((buf ++ lit.data) ++ v.data)
      (offset + lit.data.length + 1 + n.data.length) rfl
      (fun c hc => by have := hnchars c hc; push_neg at this ⊢; exact ⟨this.1, this.2.1⟩)

theorem renderSegs_stop (more : List (String × String)) :
    scanLen ((renderSegs more).data) = 0 := by
  cases more with
  | nil => rfl
  | cons seg rest =>
    obtain ⟨n2, l2⟩ := seg
    rfl

theorem scanLen_litAfter (l : String) (more : List (String × String))
    (h : litOkAfter l = true) :
    scanLen (l.data ++ (renderSegs more).data) = 0 := by
  rw [litOkAfter, Bool.or_eq_true] at h
  rcases h with h | h
  · have hl : l = "" := by simpa using h
    subst hl
    simpa using renderSegs_stop more
  · rw [Bool.and_eq_true] at h
    obtain ⟨hhead, _⟩ := h
    match hd : l.data with
    | [] => rw [hd] at hhead; simp at hhead
    | c :: cs =>
      rw [hd] at hhead
      simp at hhead
      subst hhead
      rw [List.cons_append, scanLen, if_neg (by simp)]

theorem substGo_render (path : List Char) (pv : List (String × String))
    (segs : List (String × String)) (lit : String) (offset : Nat) (hp : Bool)
    (buf : List Char)
    (hdrop : path.drop offset = lit.data ++ (renderSegs segs).data)
    (hlit : ∀ c ∈ lit.data, ¬(c = ':' ∨ c = '*'))
    (hwf : wfSegs segs = true) :
    substGo path pv (lit.data ++ (renderSegs segs).data) offset offset hp buf =
      substOutcome path pv segs lit buf hp := by
  induction segs generalizing lit offset hp buf with
  | nil =>
    rw [show (renderSegs ([] : List (String × String))).data = [] from rfl]
    rw [substGo_skip path pv lit.data [] offset offset hp buf
      (offset + lit.data.length) rfl hlit]
    rfl
  | cons seg more ih =>
    obtain ⟨n, l⟩ := seg
    rw [wfSegs, Bool.and_eq_true, Bool.and_eq_true] at hwf
    obtain ⟨⟨hname, hlafter⟩, hmore⟩ := hwf
    rw [cleanName, Bool.and_eq_true] at hname
    obtain ⟨hne, hnall⟩ := hname
    have hn_ne : n.data ≠ [] := by
      intro hnil
      have : n = "" := by cases n; simp_all
      simp [this] at hne
    have hnchars : ∀ c ∈ n.data, ¬(c = ':' ∨ c = '*' ∨ c = '/') := by
      intro c hc
      have := List.all_eq_true.mp hnall c hc
      simpa using this
    have hrd : (renderSegs ((n, l) :: more)).data =
        ':' :: (n.data ++ (l.data ++ (renderSegs more).data)) := by
      simp [renderSegs, String.data_append, List.append_assoc]
    have hstop : scanLen (l.data ++ (renderSegs more).data) = 0 :=
      scanLen_litAfter l more hlafter
    rw [hrd] at hdrop ⊢
    rw [substGo_skip path pv lit.data
      (':' :: (n.data ++ (l.data ++ (renderSegs more).data)))
      offset offset hp buf (offset + lit.data.length) rfl hlit]
    rw [substGo_placeholder_step path pv n l ((renderSegs more).data) offset lit hp buf
      hdrop hn_ne hnchars hstop]
    rw [substOutcome]
    cases hpm : paramsByName pv n with
    | none => rfl
    | some v =>
      have hdrop3 : path.drop (offset + lit.data.length + 1 + n.data.length) =
          l.data ++ (renderSegs more).data := by
        have h1 : path.drop (offset + lit.data.length + 1 + n.data.length) =
            (path.drop (offset + lit.data.length + 1)).drop n.data.length :=
          drop_add path (offset + lit.data.length + 1) n.data.length
        have h2 : path.drop (offset + lit.data.length + 1) =
            n.data ++ (l.data ++ (renderSegs more).data) := by
          have h3 : path.drop (offset + lit.data.length + 1) =
              (path.drop offset).drop (lit.data.length + 1) :=
            drop_add path offset (lit.data.length + 1)
          rw [h3, hdrop]
          have h4 : lit.data ++ ':' :: (n.data ++ (l.data ++ (renderSegs more).data)) =
              (lit.data ++ [':']) ++ (n.data ++ (l.data ++ (renderSegs more).data)) := by
            simp
          rw [h4]
          have hlen : lit.data.length + 1 = (lit.data ++ [':']).length := by simp
          rw [hlen, List.drop_left]
        rw [h1, h2, List.drop_left]
      have hlit2 : ∀ c ∈ l.data, ¬(c = ':' ∨ c = '*') := by
        intro c hc
        rw [litOkAfter, Bool.or_eq_true] at hlafter
        rcases hlafter with h | h
        · have : l = "" := by simpa using h
          rw [this] at hc
          simp at hc
        · rw [Bool.and_eq_true] at h
          have := List.all_eq_true.mp h.2 c hc
          simpa using this
      exact ih l (offset + lit.data.length + 1 + n.data.length) true
        ((buf ++ lit.data) ++ v.data) hdrop3 hlit2 hmore

theorem substOutcome_unbound (path : List Char) (pv : List (String × String))
    (segs : List (String × String)) (lit : String) (buf : List Char) (hp : Bool)
    (n : String) (h : firstUnbound pv segs = some n) :
    substOutcome path pv segs lit buf hp =
      Except.error (errgoNew ("missing value for path parameter \"" ++ n ++ "\"")) := by
  induction segs generalizing lit buf hp with
  | nil => simp [firstUnbound] at h
  | cons seg more ih =>
    obtain ⟨n1, l1⟩ := seg
    rw [firstUnbound] at h
    rw [substOutcome]
    cases hpm : paramsByName pv n1 with
    | none =>
      rw [hpm] at h
      simp at h
      subst h
      rfl
    | some v =>
      rw [hpm] at h
      exact ih _ _ _ h

theorem substOutcome_bound (path : List Char) (pv : List (String × String))
    (segs : List (String × String)) (lit : String) (buf : List Char) (hp : Bool)
    (hall : firstUnbound pv segs = none) (hne : segs ≠ []) :
    substOutcome path pv segs lit buf hp =
      Except.ok (buf ++ (lit.data ++ boundVals pv segs)) := by
  induction segs generalizing lit buf hp with
  | nil => exact absurd rfl hne
  | cons seg more ih =>
    obtain ⟨n1, l1⟩ := seg
    rw [firstUnbound] at hall
    rw [substOutcome, boundVals]
    cases hpm : paramsByName pv n1 with
    | none =>
      rw [hpm] at hall
      simp at hall
    | some v =>
      rw [hpm] at hall
      cases more with
      | nil => simp [substOutcome, List.append_assoc]
      | cons s2 m2 =>
        show substOutcome path pv (s2 :: m2) l1 (buf ++ lit.data ++ v.data) true =
          Except.ok (buf ++ (lit.data ++ (((some v).getD "").data ++
            if s2 :: m2 = [] then [] else l1.data ++ boundVals pv (s2 :: m2))))
        rw [ih _ _ _ hall (by simp)]
        simp [List.append_assoc]

/-- C9: for a well-formed path template (a literal, then `:name` segments
each followed by a slash-initial or empty literal), the marshal
substitution loop fails with an error identifying the first missing
parameter name whenever some placeholder has no binding - so Marshal
fails, since a substitution error aborts it - and when every placeholder
is bound, each is replaced by its bound value in the resulting path. -/
theorem path_template_substitution (pv : List (String × String)) (lit0 : String)
    (segs : List (String × String))
    (hlit0 : cleanLit lit0 = true) (hwf : wfSegs segs = true) :
    (∀ n, firstUnbound pv segs = some n →
      substPath (renderTemplate lit0 segs) pv =
        Except.error (errgoNew ("missing value for path parameter \"" ++ n ++ "\"")))
    ∧ (firstUnbound pv segs = none → segs ≠ [] →
      substPath (renderTemplate lit0 segs) pv =
        Except.ok (lit0 ++ String.mk (boundVals pv segs)))
    ∧ (∀ (env : Codecs) (t : GoType) (x : List GoValue) (basePath method : String)
        (fds : List FieldDesc) (p2 : MParams) (e : GoErr),
        getRequestType t = Except.ok fds →
        marshalFields env x fds (initParams method basePath) = Except.ok p2 →
        substPath p2.urlPath p2.pathVar = Except.error e →
        MarshalModel env basePath method t x = Except.error (maskIsUnmarshal e)) := by
  have hlit : ∀ c ∈ lit0.data, ¬(c = ':' ∨ c = '*') := by
    intro c hc
    have := List.all_eq_true.mp hlit0 c hc
    simpa using this
  have hdata : (renderTemplate lit0 segs).data =
      lit0.data ++ (renderSegs segs).data := rfl
  have hmain : substPath (renderTemplate lit0 segs) pv =
      (match substOutcome (lit0.data ++ (renderSegs segs).data) pv segs lit0 [] false with
       | Except.error e => Except.error e
       | Except.ok cs => Except.ok (String.mk cs)) := by
    rw [substPath, hdata]
    rw [substGo_render (lit0.data ++ (renderSegs segs).data) pv segs lit0 0 false []
      (by rw [List.drop_zero]) hlit hwf]
  refine ⟨?_, ?_, ?_⟩
  · intro n h
    rw [hmain, substOutcome_unbound _ _ _ _ _ _ _ h]
  · intro hall hne
    rw [hmain, substOutcome_bound _ _ _ _ _ _ hall hne]
    rfl
  · intro env t x basePath method fds p2 e h1 h2 h3
    rw [MarshalModel, h1]
    simp only [marshalCore, h2, h3]

/-- C9 witness: the template "/u/:username" with no binding fails with
the error naming username (and a whole Marshal run on that template
fails the same way), while a bound placeholder is substituted. -/
theorem path_template_substitution_witness :
    substPath (renderTemplate "/u/" [("username", "")]) [] =
      Except.error (errgoNew "missing value for path parameter \"username\"") ∧
    substPath (renderTemplate "/u/" [("user", "")]) [("user", "bob")] =
      Except.ok "/u/bob" ∧
    MarshalModel trivialCodecs "/u/:username" "POST"
      (GoType.ptrTo [⟨"F1", "", ",body", GoFieldType.stringT, false⟩])
      [GoValue.vStr "test user"] =
      Except.error ⟨"missing value for path parameter \"username\"",
        ErrCause.noCause⟩ := by
  have h := path_template_substitution [] "/u/" [("username", "")]
    (by decide) (by decide)
  have h2 := path_template_substitution [("user", "bob")] "/u/" [("user", "")]
    (by decide) (by decide)
  refine ⟨?_, ?_, ?_⟩
  · have := h.1 "username" (by rfl)
    rw [this]
    rfl
  · have := h2.2.1 (by rfl) (by simp)
    rw [this]
    rfl
  · exact h.2.2 trivialCodecs
      (GoType.ptrTo [⟨"F1", "", ",body", GoFieldType.stringT, false⟩])
      [GoValue.vStr "test user"] "/u/:username" "POST"
      [⟨0, false, GoFieldType.stringT, UnmarshalerKind.bodyU, MarshalerKind.bodyM⟩]
      ⟨"POST", "/u/:username", "", [], [],
        BodyModel.jsonBody (Json.str "test user")⟩
      (errgoNew "missing value for path parameter \"username\"")
      rfl rfl rfl
